import Mathlib

/-!
Verification of the `argcomb` argument-combination checker.

The Python source attaches a rule set (an optional default `Condition` plus a
mapping from argument name to `ArgumentSpec`) to a callable, reconstructs the
set of arguments the caller actually supplied (`argcomb._get_arg_dict`), and
validates the rule set against that set (`argcomb._check_all`,
`argcomb._check`, `argcomb._validate`).

Python dictionaries are modelled as association lists `List (String × V)`
with insertion-order update semantics (`setKey`, `dictUpdate`); argument
values are an arbitrary type `V` with decidable equality, mirroring the
source's use of `!=` (value equality, not identity) on argument values.
-/

namespace Argcomb

/-- First value bound to a key in an association list; models Python
`d[k]` / `k in d` lookup on a dict rendered as an assoc list. -/
def dictGet {V : Type} : List (String × V) → String → Option V
  | [], _ => none
  | (k, v) :: rest, n => if k = n then some v else dictGet rest n

/-- Python `d[k] = v`: replace the value at the first occurrence of the key,
or append the binding at the end when the key is absent. -/
def setKey {V : Type} : List (String × V) → String → V → List (String × V)
  | [], k, v => [(k, v)]
  | (k0, v0) :: rest, k, v =>
    if k0 = k then (k0, v) :: rest else (k0, v0) :: setKey rest k v

/-- Python `d.update(kvs)`: set each binding of `kvs` in order. -/
def dictUpdate {V : Type} (d : List (String × V)) (kvs : List (String × V)) :
    List (String × V) :=
  kvs.foldl (fun acc kv => setKey acc kv.1 kv.2) d

/-- The condition language of `argcomb`: an atomic condition is an argument
name (Python `str`); derived conditions are the `Not`, `And`, `Or` and `Xor`
classes, each holding an ordered tuple of child conditions (`Not` holds
exactly one child, the invariant `Not._validate` enforces at construction
time, see `mkNot`). -/
inductive Condition : Type where
  | var : String → Condition
  | not : Condition → Condition
  | and : List Condition → Condition
  | or : List Condition → Condition
  | xor : List Condition → Condition
deriving Repr

/-- The error raised by `DerivedCondition.__init__` when a subclass's
`_validate` rejects the children (the spec's `MalformedCondition` kind; the
Python source raises `TypeError` from `Not._validate`). -/
inductive ConditionError : Type where
  | malformedCondition : ConditionError
deriving DecidableEq

/-- `Not(*args)`: `DerivedCondition.__init__` stores the children and runs
`Not._validate`, which raises unless exactly one child was given. -/
def mkNot (args : List Condition) : Except ConditionError Condition :=
  match args with
  | [c] => .ok (.not c)
  | _ => .error .malformedCondition

mutual

/-- `argcomb._validate`: evaluate a condition against the supplied-argument
dictionary. An atomic name tests membership in the dict; the derived
conditions recurse exactly as the Python loops do. -/
def validate {V : Type} (d : List (String × V)) : Condition → Bool
  | .var n => (dictGet d n).isSome
  | .not c => !validate d c
  | .or cs => validateOr d cs
  | .xor cs => validateXor d cs false
  | .and cs => validateAnd d cs

/-- The `Or` loop of `argcomb._validate`: return `true` on the first child
that validates, `false` when the children are exhausted. -/
def validateOr {V : Type} (d : List (String × V)) : List Condition → Bool
  | [] => false
  | c :: cs => if validate d c then true else validateOr d cs

/-- The `Xor` loop of `argcomb._validate`: track whether a true child has
been found, return `false` as soon as a second one appears. -/
def validateXor {V : Type} (d : List (String × V)) :
    List Condition → Bool → Bool
  | [], foundTrue => foundTrue
  | c :: cs, foundTrue =>
    if validate d c then
      if foundTrue then false else validateXor d cs true
    else validateXor d cs foundTrue

/-- The `And` loop of `argcomb._validate`: return `false` on the first child
that fails, `true` when the children are exhausted. -/
def validateAnd {V : Type} (d : List (String × V)) : List Condition → Bool
  | [] => true
  | c :: cs => if validate d c then validateAnd d cs else false

end

/-- Python truthiness of a `Condition`, as tested by
`if self._default and ...` in `argcomb._check_all`: the empty string is the
only falsy condition value (a `DerivedCondition` instance is always truthy). -/
def condTruthy : Condition → Bool
  | .var n => !(n = "")
  | _ => true

/-- An `ArgumentSpec` is either a bare `Condition` or a dict mapping values
to conditions; a key `none` models the `Else` sentinel key, a key `some w`
models the literal value `w`. -/
inductive ArgumentSpec (V : Type) : Type where
  | cond : Condition → ArgumentSpec V
  | table : List (Option V × Condition) → ArgumentSpec V

/-- The validation failure carried by `InvalidArgumentCombination`: either
the top-level default condition failed (`argcomb._check_all`), or the named
argument's condition failed (`argcomb._raise_error`). -/
inductive CheckError : Type where
  | defaultFailed : Condition → CheckError
  | argFailed : String → Condition → CheckError

/-- The entry loop of `argcomb._check` over a dict-valued spec: an entry is
skipped when its key differs from the supplied value (the `Else` sentinel key
compares unequal to every argument value, and the `arg_name is Else` test
never fires because `arg_name` is a string); a matching entry whose condition
fails raises, naming the argument. -/
def checkEntries {V : Type} [DecidableEq V] (d : List (String × V))
    (argName : String) (suppliedVal : V) :
    List (Option V × Condition) → Option CheckError
  | [] => none
  | (key, cond) :: rest =>
    match key with
    | none => checkEntries d argName suppliedVal rest
    | some w =>
      if w = suppliedVal then
        if validate d cond then checkEntries d argName suppliedVal rest
        else some (.argFailed argName cond)
      else checkEntries d argName suppliedVal rest

/-- Python `Else in arg_spec` / `arg_spec[Else]`: the first entry keyed by
the `Else` sentinel, if any. -/
def elseGet {V : Type} : List (Option V × Condition) → Option Condition
  | [] => none
  | (none, c) :: _ => some c
  | (some _, _) :: rest => elseGet rest

/-- `argcomb._check`: return immediately when the argument was not supplied;
for a bare condition, validate it; for a dict spec, run the entry loop and
then additionally validate the `Else` condition when present. -/
def check {V : Type} [DecidableEq V] (d : List (String × V))
    (argName : String) (argSpec : ArgumentSpec V) : Option CheckError :=
  match dictGet d argName with
  | none => none
  | some suppliedVal =>
    match argSpec with
    | .cond c => if validate d c then none else some (.argFailed argName c)
    | .table entries =>
      match checkEntries d argName suppliedVal entries with
      | some e => some e
      | none =>
        match elseGet entries with
        | some c =>
          if validate d c then none else some (.argFailed argName c)
        | none => none

/-- The `for arg_name, arg_spec in self._spec.items()` loop of
`argcomb._check_all`: the first raised error stops the iteration. -/
def checkSpecs {V : Type} [DecidableEq V] (d : List (String × V)) :
    List (String × ArgumentSpec V) → Option CheckError
  | [] => none
  | (name, sp) :: rest =>
    match check d name sp with
    | some e => some e
    | none => checkSpecs d rest

/-- `argcomb._check_all`: raise when the default condition is truthy and
fails, then run the per-argument checks in declaration order. -/
def checkAll {V : Type} [DecidableEq V] (default : Option Condition)
    (specs : List (String × ArgumentSpec V)) (d : List (String × V)) :
    Option CheckError :=
  match default with
  | some c =>
    if condTruthy c && !validate d c then some (.defaultFailed c)
    else checkSpecs d specs
  | none => checkSpecs d specs

/-- The `defaults` table built at the top of `argcomb._get_arg_dict`: when
positional defaults exist, drop the trailing keyword-only names from
`all_arg_names` (Python `all_arg_names[:-kw_only_arg_count]`) and update an
empty dict with `zip(reversed(pos_arg_names), reversed(pos_arg_defaults))`;
then update with the keyword-only defaults when those exist. -/
def buildDefaults {V : Type} (allArgNames : List String)
    (posDefaults : List V) (kwDefaults : List (String × V))
    (kwOnlyCount : Nat) : List (String × V) :=
  let d0 : List (String × V) :=
    if posDefaults.isEmpty then []
    else
      let posArgNames :=
        if kwOnlyCount ≠ 0 then
          allArgNames.take (allArgNames.length - kwOnlyCount)
        else allArgNames
      dictUpdate [] (posArgNames.reverse.zip posDefaults.reverse)
  if kwDefaults.isEmpty then d0 else dictUpdate d0 kwDefaults

/-- The filter of both comprehensions in `argcomb._get_arg_dict`:
`arg_name not in defaults or defaults[arg_name] != arg_value`. -/
def keepSupplied {V : Type} [DecidableEq V] (defaults : List (String × V))
    (p : String × V) : Bool :=
  match dictGet defaults p.1 with
  | none => true
  | some dv => decide (dv ≠ p.2)

/-- The positional comprehension of `argcomb._get_arg_dict`: pair names with
positional values by position and keep the pairs that survive default
filtering, building a dict. -/
def posArgDict {V : Type} [DecidableEq V] (allArgNames : List String)
    (posValues : List V) (defaults : List (String × V)) :
    List (String × V) :=
  dictUpdate [] ((allArgNames.zip posValues).filter (keepSupplied defaults))

/-- The warning loop of `argcomb._get_arg_dict`: the names of the keyword
arguments already present in the dict built from positional values, in
iteration order; each such name gets a `warnings.warn` call. -/
def ambiguousWarnings {V : Type} (argDict : List (String × V))
    (kwArgs : List (String × V)) : List String :=
  (kwArgs.filter (fun p => (dictGet argDict p.1).isSome)).map (fun p => p.1)

/-- `argcomb._get_arg_dict`: build the defaults table, the positional dict,
the warning list, and finally overlay the default-filtered keyword
arguments; returns the supplied-argument dict and the warned names. -/
def getArgDict {V : Type} [DecidableEq V] (posValues : List V)
    (kwArgs : List (String × V)) (allArgNames : List String)
    (posDefaults : List V) (kwDefaults : List (String × V))
    (kwOnlyCount : Nat) : List (String × V) × List String :=
  let defaults := buildDefaults allArgNames posDefaults kwDefaults kwOnlyCount
  let argDict := posArgDict allArgNames posValues defaults
  let warns := ambiguousWarnings argDict kwArgs
  (dictUpdate argDict (dictUpdate [] (kwArgs.filter (keepSupplied defaults))),
    warns)

/-! ### Spec-side reformulations

These definitions follow the wording of the specification (not the source)
and exist only to be compared with the source-derived definitions above. -/

/-- Stated from the spec, §4.3 steps 1–2: take the positional-or-keyword
prefix (the last `kwOnlyCount` names are keyword-only), zip its trailing
names with the positional defaults (defaults align to the rightmost
parameters), then overlay the keyword-only defaults on top. -/
def buildDefaultsSpec {V : Type} (allArgNames : List String)
    (posDefaults : List V) (kwDefaults : List (String × V))
    (kwOnlyCount : Nat) : List (String × V) :=
  let posNames := allArgNames.take (allArgNames.length - kwOnlyCount)
  let trailing := posNames.drop (posNames.length - posDefaults.length)
  dictUpdate (dictUpdate [] (trailing.zip posDefaults)) kwDefaults

/-- Stated from the spec, §4.2: a bare condition resolves to itself; a
value-keyed mapping resolves to the condition of every key equal to the
supplied value, plus the catch-all condition when present. -/
def resolveConds {V : Type} [DecidableEq V] (sp : ArgumentSpec V) (v : V) :
    List Condition :=
  match sp with
  | .cond c => [c]
  | .table entries =>
    ((entries.filter (fun e => e.1 = some v)).map (fun e => e.2)) ++
      (match elseGet entries with
       | some c => [c]
       | none => [])

/-- Stated from the spec, §4.4 step 3 for a single declared argument: skip
when the argument was not supplied, otherwise resolve the applicable
conditions and fail on the first that evaluates false, naming the
argument. -/
def checkResolved {V : Type} [DecidableEq V] (d : List (String × V))
    (argName : String) (argSpec : ArgumentSpec V) : Option CheckError :=
  match dictGet d argName with
  | none => none
  | some v =>
    match (resolveConds argSpec v).find? (fun c => !validate d c) with
    | some c => some (.argFailed argName c)
    | none => none

/-- Stated from the spec, §4.4 step 3: process the declared specs in
declaration order, stopping at the first failure. -/
def checkSpecsResolved {V : Type} [DecidableEq V] (d : List (String × V)) :
    List (String × ArgumentSpec V) → Option CheckError
  | [] => none
  | (name, sp) :: rest =>
    match checkResolved d name sp with
    | some e => some e
    | none => checkSpecsResolved d rest

/-- Stated from the spec, §4.4 steps 2–3, with the truthiness amendment: a
top-level default condition, when one exists and is truthy (not the empty
string), must hold; then the per-argument checks run in declaration order. -/
def checkAllResolved {V : Type} [DecidableEq V] (default : Option Condition)
    (specs : List (String × ArgumentSpec V)) (d : List (String × V)) :
    Option CheckError :=
  match default with
  | some c =>
    if condTruthy c && !validate d c then some (.defaultFailed c)
    else checkSpecsResolved d specs
  | none => checkSpecsResolved d specs

/-! ### Association-list toolkit -/

theorem dictGet_append {V : Type} (l1 l2 : List (String × V)) (n : String) :
    dictGet (l1 ++ l2) n = (dictGet l1 n).or (dictGet l2 n) := by
  induction l1 with
  | nil => simp [dictGet]
  | cons kv rest ih =>
    obtain ⟨k, v⟩ := kv
    by_cases h : k = n <;> simp [dictGet, h, ih]

theorem dictGet_setKey {V : Type} (d : List (String × V)) (k n : String)
    (v : V) :
    dictGet (setKey d k v) n = if k = n then some v else dictGet d n := by
  induction d with
  | nil => simp [setKey, dictGet]
  | cons kv rest ih =>
    obtain ⟨k0, v0⟩ := kv
    by_cases h0 : k0 = k
    · subst h0
      by_cases h1 : k0 = n <;> simp [setKey, dictGet, h1]
    · by_cases h1 : k0 = n
      · have hkn : ¬k = n := fun h => h0 (h1.trans h.symm)
        have hnk : ¬n = k := fun h => hkn h.symm
        simp [setKey, dictGet, h0, h1, hkn, hnk]
      · simp [setKey, dictGet, h0, h1, ih]

theorem dictGet_dictUpdate {V : Type} (kvs : List (String × V))
    (d : List (String × V)) (n : String) :
    dictGet (dictUpdate d kvs) n = (dictGet kvs.reverse n).or (dictGet d n) := by
  induction kvs generalizing d with
  | nil => simp [dictUpdate, dictGet]
  | cons kv rest ih =>
    obtain ⟨k, v⟩ := kv
    show dictGet (dictUpdate (setKey d k v) rest) n = _
    rw [ih, List.reverse_cons, dictGet_append, dictGet_setKey]
    cases hr : dictGet rest.reverse n with
    | some w => simp
    | none =>
      by_cases h : k = n <;> simp [dictGet, h]

theorem dictGet_eq_none_iff {V : Type} (l : List (String × V)) (n : String) :
    dictGet l n = none ↔ n ∉ l.map Prod.fst := by
  induction l with
  | nil => simp [dictGet]
  | cons kv rest ih =>
    obtain ⟨k, v⟩ := kv
    by_cases h : k = n
    · subst h
      simp [dictGet]
    · have h2 : ¬n = k := fun hh => h hh.symm
      simp [dictGet, h, h2, ih]

theorem mem_of_dictGet_eq_some {V : Type} {l : List (String × V)}
    {n : String} {v : V} (h : dictGet l n = some v) : (n, v) ∈ l := by
  induction l with
  | nil => simp [dictGet] at h
  | cons kv rest ih =>
    obtain ⟨k, w⟩ := kv
    by_cases hk : k = n
    · subst hk
      simp [dictGet] at h
      simp [h]
    · simp [dictGet, hk] at h
      exact List.mem_cons_of_mem _ (ih h)

theorem dictGet_eq_some_of_mem {V : Type} {l : List (String × V)}
    {n : String} {v : V} (hnd : (l.map Prod.fst).Nodup) (h : (n, v) ∈ l) :
    dictGet l n = some v := by
  induction l with
  | nil => simp at h
  | cons kv rest ih =>
    obtain ⟨k, w⟩ := kv
    simp only [List.map_cons, List.nodup_cons] at hnd
    rcases List.mem_cons.mp h with h1 | h1
    · rw [Prod.mk.injEq] at h1
      simp [dictGet, h1.1.symm, h1.2]
    · have hk : ¬k = n := by
        intro hkn
        subst hkn
        exact hnd.1 (List.mem_map.mpr ⟨(k, v), h1, rfl⟩)
      simp [dictGet, hk]
      exact ih hnd.2 h1

theorem dictGet_reverse {V : Type} {l : List (String × V)}
    (hnd : (l.map Prod.fst).Nodup) (n : String) :
    dictGet l.reverse n = dictGet l n := by
  induction l with
  | nil => simp
  | cons kv rest ih =>
    obtain ⟨k, v⟩ := kv
    simp only [List.map_cons, List.nodup_cons] at hnd
    rw [List.reverse_cons, dictGet_append]
    by_cases h : k = n
    · subst h
      have : dictGet rest.reverse k = none := by
        rw [dictGet_eq_none_iff]
        simpa using hnd.1
      simp [this, dictGet]
    · have h2 : dictGet [(k, v)] n = none := by simp [dictGet, h]
      rw [h2, Option.or_none, ih hnd.2]
      simp [dictGet, h]

theorem zip_left_truncate {α β : Type} (a b : List α) (c : List β)
    (h : a.length = c.length) : (a ++ b).zip c = a.zip c := by
  have h2 : (a ++ b).zip (c ++ ([] : List β)) = a.zip c ++ b.zip [] :=
    List.zip_append h
  simpa using h2

theorem zip_reverse {α β : Type} (a : List α) (b : List β)
    (h : a.length = b.length) :
    a.reverse.zip b.reverse = (a.zip b).reverse := by
  induction a generalizing b with
  | nil =>
    cases b with
    | nil => simp
    | cons y b => simp at h
  | cons x a ih =>
    cases b with
    | nil => simp at h
    | cons y b =>
      simp only [List.length_cons, Nat.succ.injEq] at h
      simp only [List.reverse_cons]
      rw [List.zip_append (by simp [h]), ih b h]
      simp

/-! ### C5: Xor semantics -/

theorem validateXor_count {V : Type} (d : List (String × V)) :
    ∀ (cs : List Condition) (b : Bool),
      validateXor d cs b =
        decide (cs.countP (fun c => validate d c) + (if b then 1 else 0) = 1)
  | [], b => by cases b <;> simp [validateXor]
  | c :: cs, b => by
    by_cases h : validate d c = true
    · cases b with
      | true =>
        have h1 : validateXor d (c :: cs) true = false := by
          simp [validateXor, h]
        have h2 : (c :: cs).countP (fun c => validate d c) =
            cs.countP (fun c => validate d c) + 1 := by
          simp [List.countP_cons, h]
        rw [h1, h2, eq_comm, decide_eq_false_iff_not]
        simp only [reduceIte]
        omega
      | false =>
        have h1 : validateXor d (c :: cs) false = validateXor d cs true := by
          simp [validateXor, h]
        have h2 : (c :: cs).countP (fun c => validate d c) =
            cs.countP (fun c => validate d c) + 1 := by
          simp [List.countP_cons, h]
        have e1 : (if true = true then 1 else 0) = 1 := rfl
        have e2 : (if false = true then 1 else 0) = 0 := rfl
        rw [h1, h2, validateXor_count d cs true, decide_eq_decide, e1, e2]
    · have h1 : validateXor d (c :: cs) b = validateXor d cs b := by
        simp [validateXor, h]
      have h2 : (c :: cs).countP (fun c => validate d c) =
          cs.countP (fun c => validate d c) := by
        simp [List.countP_cons, h]
      rw [h1, h2, validateXor_count d cs b]

/-- C5: evaluating `Xor(c1..ck)` over a supplied-argument set returns `true`
iff exactly one child condition evaluates `true` over that set, and for zero
children it returns `false`. -/
theorem validate_xor_iff_exactly_one {V : Type} (d : List (String × V))
    (cs : List Condition) :
    validate d (.xor cs) =
        decide (cs.countP (fun c => validate d c) = 1) ∧
      validate d (.xor ([] : List Condition)) = false := by
  constructor
  · rw [show validate d (.xor cs) = validateXor d cs false from by
      simp [validate]]
    rw [validateXor_count d cs false]
    simp
  · rw [show validate d (.xor ([] : List Condition)) =
        validateXor d [] false from by simp [validate]]
    simp [validateXor]

/-! ### C6: Not arity is checked at construction time -/

/-- C6: constructing a `Not` condition with any number of children other
than exactly one fails at construction time with the malformed-condition
error. -/
theorem mkNot_fails_unless_single_child (args : List Condition)
    (h : args.length ≠ 1) :
    mkNot args = .error .malformedCondition := by
  match args with
  | [] => rfl
  | [c] => simp at h
  | c1 :: c2 :: rest => rfl

/-- Witness for C6 at the concrete input `[]`. -/
theorem mkNot_fails_unless_single_child_witness :
    ([] : List Condition).length ≠ 1 ∧
      mkNot [] = .error .malformedCondition :=
  ⟨by decide, mkNot_fails_unless_single_child [] (by decide)⟩

/-! ### C9: a falsy (empty-string) default condition is never evaluated -/

/-- C9: when the top-level default condition is the empty-string atomic
condition, `_check_all` behaves as if no default condition existed (every
call passes the default check), even though that condition would evaluate
`false` whenever no argument named by the empty string is supplied. -/
theorem empty_default_never_checked {V : Type} [DecidableEq V]
    (specs : List (String × ArgumentSpec V)) (d : List (String × V))
    (h : dictGet d "" = none) :
    checkAll (some (.var "")) specs d = checkSpecs d specs ∧
      validate d (.var "") = false := by
  constructor
  · simp [checkAll, condTruthy]
  · simp [validate, h]

/-- Witness for C9 at a concrete call supplying only `x`. -/
theorem empty_default_never_checked_witness :
    dictGet [("x", (0 : Int))] "" = none ∧
      (checkAll (some (.var "")) ([] : List (String × ArgumentSpec Int))
          [("x", (0 : Int))] =
        checkSpecs [("x", (0 : Int))]
          ([] : List (String × ArgumentSpec Int)) ∧
        validate [("x", (0 : Int))] (Condition.var "") = false) :=
  ⟨rfl, empty_default_never_checked [] [("x", (0 : Int))] rfl⟩

/-! ### C4: validator orchestration -/

theorem checkEntries_eq_find {V : Type} [DecidableEq V]
    (d : List (String × V)) (argName : String) (v : V) :
    ∀ entries : List (Option V × Condition),
      checkEntries d argName v entries =
        match ((entries.filter (fun e => e.1 = some v)).map
            (fun e => e.2)).find? (fun c => !validate d c) with
        | some c => some (.argFailed argName c)
        | none => none
  | [] => rfl
  | (none, c) :: rest => by
    have h : (decide ((none : Option V) = some v)) = false := by simp
    simp only [checkEntries, List.filter_cons, h, Bool.false_eq_true,
      if_false]
    exact checkEntries_eq_find d argName v rest
  | (some w, c) :: rest => by
    by_cases hw : w = v
    · subst hw
      by_cases hv : validate d c = true
      · simp [checkEntries, List.filter_cons, List.find?_cons, hv,
          checkEntries_eq_find d argName w rest]
      · have hv2 : validate d c = false := by
          cases h3 : validate d c
          · rfl
          · exact absurd h3 hv
        simp [checkEntries, List.filter_cons, List.find?_cons, hv2]
    · simp [checkEntries, List.filter_cons, List.find?_cons, hw,
        checkEntries_eq_find d argName v rest]

theorem check_eq_checkResolved {V : Type} [DecidableEq V]
    (d : List (String × V)) (argName : String) (sp : ArgumentSpec V) :
    check d argName sp = checkResolved d argName sp := by
  unfold check checkResolved
  cases hs : dictGet d argName with
  | none => rfl
  | some v =>
    cases sp with
    | cond c =>
      dsimp only
      by_cases h : validate d c = true <;>
        simp [resolveConds, List.find?, h]
    | table entries =>
      dsimp only
      rw [checkEntries_eq_find]
      cases hf : ((entries.filter (fun e => e.1 = some v)).map
          (fun e => e.2)).find? (fun c => !validate d c) with
      | some c => simp [resolveConds, List.find?_append, hf]
      | none =>
        simp only [resolveConds, List.find?_append, hf, Option.none_or]
        cases he : elseGet entries with
        | none => simp
        | some c =>
          by_cases h : validate d c = true <;> simp [h, List.find?]

theorem checkSpecs_eq_resolved {V : Type} [DecidableEq V]
    (d : List (String × V)) :
    ∀ specs : List (String × ArgumentSpec V),
      checkSpecs d specs = checkSpecsResolved d specs
  | [] => rfl
  | (name, sp) :: rest => by
    simp only [checkSpecs, checkSpecsResolved, check_eq_checkResolved]
    cases checkResolved d name sp with
    | some e => rfl
    | none => exact checkSpecs_eq_resolved d rest

/-- C4 counterexample: with the empty-string atomic condition as top-level
default and no supplied arguments, the default condition exists and
evaluates `false`, yet `_check_all` raises nothing — contradicting the claim
that the default condition is evaluated whenever one exists. -/
theorem checkAll_falsy_default_counterexample :
    checkAll (some (.var "")) ([] : List (String × ArgumentSpec Int))
        ([] : List (String × Int)) = none ∧
      validate ([] : List (String × Int)) (Condition.var "") = false := by
  constructor
  · rfl
  · simp [validate, dictGet]

/-- C4 (amended): the validator evaluates the top-level default condition
when one exists and is truthy (not the empty string), raising on failure;
it then processes per-argument specs in declaration order, skipping
arguments not in the supplied set, and raises — naming the offending
argument — at the first applicable condition (resolved per §4.2) that
evaluates false, running no further checks. -/
theorem checkAll_refines_resolved {V : Type} [DecidableEq V]
    (default : Option Condition) (specs : List (String × ArgumentSpec V))
    (d : List (String × V)) :
    checkAll default specs d = checkAllResolved default specs d := by
  cases default with
  | none => exact checkSpecs_eq_resolved d specs
  | some c =>
    simp only [checkAll, checkAllResolved]
    by_cases h : (condTruthy c && !validate d c) = true <;>
      simp [h, checkSpecs_eq_resolved d specs]

/-! ### C1: a value match does not suppress the catch-all -/

theorem check_table_eq {V : Type} [DecidableEq V] (d : List (String × V))
    (a : String) (v : V) (entries : List (Option V × Condition))
    (hsup : dictGet d a = some v) :
    check d a (.table entries) =
      match checkEntries d a v entries with
      | some e => some e
      | none =>
        match elseGet entries with
        | some c => if validate d c then none else some (.argFailed a c)
        | none => none := by
  unfold check
  rw [hsup]

theorem checkEntries_none_valid {V : Type} [DecidableEq V]
    {d : List (String × V)} {argName : String} {v : V} :
    ∀ {entries : List (Option V × Condition)},
      checkEntries d argName v entries = none →
      ∀ c : Condition, (some v, c) ∈ entries → validate d c = true
  | [], _, c, hc => by simp at hc
  | (none, c0) :: rest, h, c, hc => by
    rcases List.mem_cons.mp hc with h1 | h1
    · simp at h1
    · exact checkEntries_none_valid (by simpa [checkEntries] using h) c h1
  | (some w, c0) :: rest, h, c, hc => by
    by_cases hw : w = v
    · subst hw
      by_cases hv : validate d c0 = true
      · have hrest : checkEntries d argName w rest = none := by
          simpa [checkEntries, hv] using h
        rcases List.mem_cons.mp hc with h1 | h1
        · rw [Prod.mk.injEq] at h1
          rw [h1.2]
          exact hv
        · exact checkEntries_none_valid hrest c h1
      · have hv2 : validate d c0 = false := by
          cases h3 : validate d c0
          · rfl
          · exact absurd h3 hv
        exfalso
        simp [checkEntries, hv2] at h
    · have hrest : checkEntries d argName v rest = none := by
        simpa [checkEntries, hw] using h
      rcases List.mem_cons.mp hc with h1 | h1
      · rw [Prod.mk.injEq] at h1
        exact absurd (Option.some.inj h1.1).symm hw
      · exact checkEntries_none_valid hrest c h1

/-- C1: when a value-keyed spec contains an entry whose key equals the
supplied value and a catch-all entry, validation of the owning argument
requires both conditions: the check passes only when both hold, and fails
(with an `InvalidArgumentCombination`-carrying error) when either evaluates
false. -/
theorem check_table_requires_match_and_catchall {V : Type} [DecidableEq V]
    (d : List (String × V)) (a : String) (v : V)
    (entries : List (Option V × Condition)) (c1 c2 : Condition)
    (hsup : dictGet d a = some v)
    (hmem : (some v, c1) ∈ entries)
    (helse : elseGet entries = some c2) :
    (check d a (.table entries) = none →
      validate d c1 = true ∧ validate d c2 = true) ∧
    ((validate d c1 = false ∨ validate d c2 = false) →
      (check d a (.table entries)).isSome = true) := by
  have hmain : check d a (.table entries) = none →
      validate d c1 = true ∧ validate d c2 = true := by
    intro h
    rw [check_table_eq d a v entries hsup] at h
    cases hce : checkEntries d a v entries with
    | some e =>
      rw [hce] at h
      exact absurd h (by simp)
    | none =>
      rw [hce, helse] at h
      dsimp only at h
      refine ⟨checkEntries_none_valid hce c1 hmem, ?_⟩
      by_cases hv : validate d c2 = true
      · exact hv
      · rw [if_neg hv] at h
        exact absurd h (by simp)
  refine ⟨hmain, ?_⟩
  intro hor
  cases hck : check d a (.table entries) with
  | some e => rfl
  | none =>
    rcases hmain hck with ⟨h1, h2⟩
    rcases hor with h | h
    · rw [h1] at h
      exact absurd h (by simp)
    · rw [h2] at h
      exact absurd h (by simp)

/-- Witness for C1: argument `a` supplied with value `3`, a matching entry
requiring `b` and a catch-all requiring `c`. -/
theorem check_table_requires_match_and_catchall_witness :
    dictGet [("a", (3 : Int)), ("c", (1 : Int))] "a" = some 3 ∧
      ((some (3 : Int), Condition.var "b") ∈
        [((some (3 : Int) : Option Int), Condition.var "b"),
          ((none : Option Int), Condition.var "c")]) ∧
      elseGet [((some (3 : Int) : Option Int), Condition.var "b"),
          ((none : Option Int), Condition.var "c")] =
        some (Condition.var "c") ∧
      ((check [("a", (3 : Int)), ("c", (1 : Int))] "a"
          (.table [((some (3 : Int) : Option Int), Condition.var "b"),
            ((none : Option Int), Condition.var "c")]) = none →
        validate [("a", (3 : Int)), ("c", (1 : Int))]
            (Condition.var "b") = true ∧
          validate [("a", (3 : Int)), ("c", (1 : Int))]
            (Condition.var "c") = true) ∧
      ((validate [("a", (3 : Int)), ("c", (1 : Int))]
            (Condition.var "b") = false ∨
          validate [("a", (3 : Int)), ("c", (1 : Int))]
            (Condition.var "c") = false) →
        (check [("a", (3 : Int)), ("c", (1 : Int))] "a"
          (.table [((some (3 : Int) : Option Int), Condition.var "b"),
            ((none : Option Int), Condition.var "c")])).isSome = true)) :=
  ⟨rfl, by simp, rfl,
    check_table_requires_match_and_catchall _ _ _ _ _ _ rfl (by simp) rfl⟩

/-! ### Key-uniqueness toolkit for the call-site binder -/

theorem mem_keys_iff_dictGet {V : Type} (l : List (String × V)) (n : String) :
    n ∈ l.map Prod.fst ↔ dictGet l n ≠ none := by
  rw [Ne, dictGet_eq_none_iff]
  exact not_not.symm

theorem setKey_keys_nodup {V : Type} {d : List (String × V)}
    (hnd : (d.map Prod.fst).Nodup) (k : String) (v : V) :
    ((setKey d k v).map Prod.fst).Nodup := by
  induction d with
  | nil => simp [setKey]
  | cons kv rest ih =>
    obtain ⟨k0, v0⟩ := kv
    simp only [List.map_cons, List.nodup_cons] at hnd
    by_cases h : k0 = k
    · simpa [setKey, h, List.nodup_cons] using hnd
    · simp only [setKey, h, if_false, List.map_cons, List.nodup_cons]
      refine ⟨?_, ih hnd.2⟩
      intro hmem
      have := (mem_keys_iff_dictGet _ _).mp hmem
      rw [dictGet_setKey] at this
      have hk : ¬k = k0 := fun hh => h hh.symm
      rw [if_neg hk] at this
      exact this ((dictGet_eq_none_iff _ _).mpr hnd.1)

theorem dictUpdate_keys_nodup {V : Type} :
    ∀ (kvs : List (String × V)) {d : List (String × V)},
      (d.map Prod.fst).Nodup → ((dictUpdate d kvs).map Prod.fst).Nodup
  | [], _, h => h
  | kv :: rest, _, h =>
    dictUpdate_keys_nodup rest (setKey_keys_nodup h kv.1 kv.2)

theorem dictGet_dictUpdate_nodup {V : Type} (kvs d : List (String × V))
    (n : String) (hnd : (kvs.map Prod.fst).Nodup) :
    dictGet (dictUpdate d kvs) n = (dictGet kvs n).or (dictGet d n) := by
  rw [dictGet_dictUpdate, dictGet_reverse hnd]

theorem dictGet_unique {V : Type} {l : List (String × V)}
    (hnd : (l.map Prod.fst).Nodup) {k : String} {v1 v2 : V}
    (h1 : (k, v1) ∈ l) (h2 : (k, v2) ∈ l) : v1 = v2 := by
  have e1 := dictGet_eq_some_of_mem hnd h1
  have e2 := dictGet_eq_some_of_mem hnd h2
  rw [e1] at e2
  exact Option.some.inj e2

theorem zip_keys_nodup {α β : Type} :
    ∀ (l1 : List α) (l2 : List β), l1.Nodup →
      ((l1.zip l2).map Prod.fst).Nodup
  | [], _, _ => by simp
  | _ :: _, [], _ => by simp
  | x :: l1, y :: l2, h => by
    simp only [List.zip_cons_cons, List.map_cons, List.nodup_cons]
    rcases List.nodup_cons.mp h with ⟨hx, h1⟩
    refine ⟨?_, zip_keys_nodup l1 l2 h1⟩
    intro hmem
    rcases List.mem_map.mp hmem with ⟨p, hp, hfst⟩
    obtain ⟨pa, pb⟩ := p
    cases hfst
    exact hx (List.of_mem_zip hp).1

theorem filtered_kw_keys_nodup {V : Type} [DecidableEq V]
    {kwArgs : List (String × V)} (hnd : (kwArgs.map Prod.fst).Nodup)
    (p : String × V → Bool) :
    ((kwArgs.filter p).map Prod.fst).Nodup :=
  List.Nodup.sublist ((List.filter_sublist kwArgs).map Prod.fst) hnd

theorem getArgDict_fst_dictGet {V : Type} [DecidableEq V]
    (posValues : List V) (kwArgs : List (String × V))
    (allArgNames : List String) (posDefaults : List V)
    (kwDefaults : List (String × V)) (kwOnlyCount : Nat) (n : String)
    (hnodupkw : (kwArgs.map Prod.fst).Nodup) :
    dictGet (getArgDict posValues kwArgs allArgNames posDefaults kwDefaults
        kwOnlyCount).fst n =
      (dictGet (kwArgs.filter (keepSupplied
          (buildDefaults allArgNames posDefaults kwDefaults kwOnlyCount)))
        n).or
      (dictGet (posArgDict allArgNames posValues
          (buildDefaults allArgNames posDefaults kwDefaults kwOnlyCount))
        n) := by
  have hf := filtered_kw_keys_nodup hnodupkw (keepSupplied
    (buildDefaults allArgNames posDefaults kwDefaults kwOnlyCount))
  have hinner : ((dictUpdate [] (kwArgs.filter (keepSupplied
      (buildDefaults allArgNames posDefaults kwDefaults
        kwOnlyCount)))).map Prod.fst).Nodup :=
    dictUpdate_keys_nodup _ (by simp)
  show dictGet (dictUpdate
      (posArgDict allArgNames posValues
        (buildDefaults allArgNames posDefaults kwDefaults kwOnlyCount))
      (dictUpdate [] (kwArgs.filter (keepSupplied
        (buildDefaults allArgNames posDefaults kwDefaults kwOnlyCount)))))
      n = _
  rw [dictGet_dictUpdate_nodup _ _ _ hinner,
    dictGet_dictUpdate_nodup _ _ _ hf]
  simp [dictGet]

/-! ### C7: double binding warns but keeps the keyword value -/

/-- C7: when a keyword argument's name is already present in the binder's
positional-step result, the binder records an ambiguous-binding warning for
that name, still produces a supplied-argument dict (the call proceeds), and
the keyword entry is included in that dict unless its value equals the
declared default. -/
theorem kw_overlap_warns_and_includes {V : Type} [DecidableEq V]
    (posValues : List V) (kwArgs : List (String × V))
    (allArgNames : List String) (posDefaults : List V)
    (kwDefaults : List (String × V)) (kwOnlyCount : Nat)
    (a : String) (v : V)
    (hnodupkw : (kwArgs.map Prod.fst).Nodup)
    (hkw : dictGet kwArgs a = some v)
    (hpos : (dictGet (posArgDict allArgNames posValues
      (buildDefaults allArgNames posDefaults kwDefaults kwOnlyCount))
      a).isSome = true) :
    a ∈ (getArgDict posValues kwArgs allArgNames posDefaults kwDefaults
        kwOnlyCount).snd ∧
      (dictGet (buildDefaults allArgNames posDefaults kwDefaults kwOnlyCount)
          a ≠ some v →
        dictGet (getArgDict posValues kwArgs allArgNames posDefaults
          kwDefaults kwOnlyCount).fst a = some v) := by
  constructor
  · show a ∈ ambiguousWarnings (posArgDict allArgNames posValues
      (buildDefaults allArgNames posDefaults kwDefaults kwOnlyCount)) kwArgs
    unfold ambiguousWarnings
    exact List.mem_map.mpr ⟨(a, v),
      List.mem_filter.mpr ⟨mem_of_dictGet_eq_some hkw, hpos⟩, rfl⟩
  · intro hne
    have hkeep : keepSupplied
        (buildDefaults allArgNames posDefaults kwDefaults kwOnlyCount)
        (a, v) = true := by
      unfold keepSupplied
      cases hd : dictGet
          (buildDefaults allArgNames posDefaults kwDefaults kwOnlyCount) a with
      | none => rfl
      | some dv =>
        have hdv : dv ≠ v := fun he => hne (by rw [hd, he])
        simp [hdv]
    rw [getArgDict_fst_dictGet _ _ _ _ _ _ a hnodupkw]
    have hf := filtered_kw_keys_nodup hnodupkw (keepSupplied
      (buildDefaults allArgNames posDefaults kwDefaults kwOnlyCount))
    rw [dictGet_eq_some_of_mem hf
      (List.mem_filter.mpr ⟨mem_of_dictGet_eq_some hkw, hkeep⟩)]
    rfl

/-! ### C8: a default-filtered positional binding never warns -/

/-- C8: if a name is passed both positionally and as a keyword but its
positional value equals the declared default (so the positional occurrence
is filtered out of the positional-step result), no ambiguous-binding warning
is emitted for that name. -/
theorem no_warning_when_positional_filtered {V : Type} [DecidableEq V]
    (posValues : List V) (kwArgs : List (String × V))
    (allArgNames : List String) (posDefaults : List V)
    (kwDefaults : List (String × V)) (kwOnlyCount : Nat)
    (a : String) (w : V)
    (hnodup : allArgNames.Nodup)
    (hmem : (a, w) ∈ allArgNames.zip posValues)
    (hdef : dictGet (buildDefaults allArgNames posDefaults kwDefaults
      kwOnlyCount) a = some w) :
    a ∉ (getArgDict posValues kwArgs allArgNames posDefaults kwDefaults
      kwOnlyCount).snd := by
  have hzn : ((allArgNames.zip posValues).map Prod.fst).Nodup :=
    zip_keys_nodup _ _ hnodup
  have hnone : dictGet (posArgDict allArgNames posValues
      (buildDefaults allArgNames posDefaults kwDefaults kwOnlyCount))
      a = none := by
    unfold posArgDict
    rw [dictGet_dictUpdate_nodup _ _ _
      (List.Nodup.sublist ((List.filter_sublist _).map Prod.fst) hzn)]
    have hno : dictGet ((allArgNames.zip posValues).filter (keepSupplied
        (buildDefaults allArgNames posDefaults kwDefaults kwOnlyCount)))
        a = none := by
      rw [dictGet_eq_none_iff]
      intro hmem3
      rcases List.mem_map.mp hmem3 with ⟨p, hp, hfst⟩
      obtain ⟨pa, pb⟩ := p
      cases hfst
      rcases List.mem_filter.mp hp with ⟨hmem2, hkeep⟩
      have hbw : pb = w := dictGet_unique hzn hmem2 hmem
      subst hbw
      unfold keepSupplied at hkeep
      rw [hdef] at hkeep
      simp at hkeep
    rw [hno]
    rfl
  intro hwarn
  have hwarn2 : a ∈ ambiguousWarnings (posArgDict allArgNames posValues
      (buildDefaults allArgNames posDefaults kwDefaults kwOnlyCount))
      kwArgs := hwarn
  unfold ambiguousWarnings at hwarn2
  rcases List.mem_map.mp hwarn2 with ⟨p, hp, hfst⟩
  obtain ⟨pa, pb⟩ := p
  cases hfst
  rcases List.mem_filter.mp hp with ⟨_, hps⟩
  rw [hnone] at hps
  simp at hps

/-! ### C10: keyword overlay against the positional value -/

/-- C10: when a name is present in the positional-step result and also
passed as a keyword, the final supplied-argument dict records the keyword
value whenever that value differs from the declared default, and keeps the
positional value when the keyword value equals the declared default. -/
theorem kw_overlay_vs_positional {V : Type} [DecidableEq V]
    (posValues : List V) (kwArgs : List (String × V))
    (allArgNames : List String) (posDefaults : List V)
    (kwDefaults : List (String × V)) (kwOnlyCount : Nat)
    (a : String) (v w dv : V)
    (hnodupkw : (kwArgs.map Prod.fst).Nodup)
    (hkw : dictGet kwArgs a = some v)
    (hpos : dictGet (posArgDict allArgNames posValues
      (buildDefaults allArgNames posDefaults kwDefaults kwOnlyCount))
      a = some w)
    (hdef : dictGet (buildDefaults allArgNames posDefaults kwDefaults
      kwOnlyCount) a = some dv) :
    (v ≠ dv →
      dictGet (getArgDict posValues kwArgs allArgNames posDefaults
        kwDefaults kwOnlyCount).fst a = some v) ∧
    (v = dv →
      dictGet (getArgDict posValues kwArgs allArgNames posDefaults
        kwDefaults kwOnlyCount).fst a = some w) := by
  constructor
  · intro hne
    have hkeep : keepSupplied
        (buildDefaults allArgNames posDefaults kwDefaults kwOnlyCount)
        (a, v) = true := by
      unfold keepSupplied
      rw [hdef]
      have : dv ≠ v := fun he => hne he.symm
      simp [this]
    rw [getArgDict_fst_dictGet _ _ _ _ _ _ a hnodupkw]
    have hf := filtered_kw_keys_nodup hnodupkw (keepSupplied
      (buildDefaults allArgNames posDefaults kwDefaults kwOnlyCount))
    rw [dictGet_eq_some_of_mem hf
      (List.mem_filter.mpr ⟨mem_of_dictGet_eq_some hkw, hkeep⟩)]
    rfl
  · intro heq
    subst heq
    have hkeep : keepSupplied
        (buildDefaults allArgNames posDefaults kwDefaults kwOnlyCount)
        (a, v) = false := by
      unfold keepSupplied
      rw [hdef]
      simp
    have hnof : dictGet (kwArgs.filter (keepSupplied
        (buildDefaults allArgNames posDefaults kwDefaults kwOnlyCount)))
        a = none := by
      rw [dictGet_eq_none_iff]
      intro hm
      rcases List.mem_map.mp hm with ⟨p, hp, hfst⟩
      obtain ⟨pa, pb⟩ := p
      cases hfst
      rcases List.mem_filter.mp hp with ⟨hmem2, hkeep2⟩
      have hbv : pb = v :=
        dictGet_unique hnodupkw hmem2 (mem_of_dictGet_eq_some hkw)
      subst hbv
      rw [hkeep] at hkeep2
      exact absurd hkeep2 (by simp)
    rw [getArgDict_fst_dictGet _ _ _ _ _ _ a hnodupkw, hnof, Option.none_or]
    exact hpos

/-! ### C3: passing a default-equal value equals omitting the argument -/

/-- C3: passing a parameter with a value equal to its declared default is
the same as omitting it. Passed positionally (as the next positional value,
matching the parameter named at that position), the whole binder output —
supplied-argument dict and warnings — is unchanged; passed as a keyword, the
supplied-argument dict is unchanged, so `f(a=DEFAULT)` and `f()` validate
identically. -/
theorem passing_default_equals_omission {V : Type} [DecidableEq V]
    (posValues : List V) (kwArgs : List (String × V))
    (allArgNames : List String) (posDefaults : List V)
    (kwDefaults : List (String × V)) (kwOnlyCount : Nat)
    (aname a : String) (dv dv2 : V) (rest : List String)
    (hdrop : allArgNames.drop posValues.length = aname :: rest)
    (hdef1 : dictGet (buildDefaults allArgNames posDefaults kwDefaults
      kwOnlyCount) aname = some dv)
    (hdef2 : dictGet (buildDefaults allArgNames posDefaults kwDefaults
      kwOnlyCount) a = some dv2) :
    getArgDict (posValues ++ [dv]) kwArgs allArgNames posDefaults
        kwDefaults kwOnlyCount =
      getArgDict posValues kwArgs allArgNames posDefaults kwDefaults
        kwOnlyCount ∧
    (getArgDict posValues (kwArgs ++ [(a, dv2)]) allArgNames posDefaults
        kwDefaults kwOnlyCount).fst =
      (getArgDict posValues kwArgs allArgNames posDefaults kwDefaults
        kwOnlyCount).fst := by
  have hlen : posValues.length ≤ allArgNames.length := by
    by_contra hgt
    push_neg at hgt
    rw [List.drop_eq_nil_of_le (Nat.le_of_lt hgt)] at hdrop
    exact List.noConfusion hdrop
  have htlen : (allArgNames.take posValues.length).length =
      posValues.length := by
    rw [List.length_take]
    exact Nat.min_eq_left hlen
  have hsplit : allArgNames =
      allArgNames.take posValues.length ++ (aname :: rest) := by
    rw [← hdrop, List.take_append_drop]
  have hz1 : allArgNames.zip posValues =
      (allArgNames.take posValues.length).zip posValues := by
    conv_lhs => rw [hsplit]
    rw [zip_left_truncate _ _ _ htlen]
  have hz2 : allArgNames.zip (posValues ++ [dv]) =
      allArgNames.zip posValues ++ [(aname, dv)] := by
    conv_lhs => rw [hsplit]
    rw [List.zip_append htlen, hz1]
    simp
  have hkeep1 : keepSupplied
      (buildDefaults allArgNames posDefaults kwDefaults kwOnlyCount)
      (aname, dv) = false := by
    unfold keepSupplied
    rw [hdef1]
    simp
  have hfil : (allArgNames.zip (posValues ++ [dv])).filter (keepSupplied
      (buildDefaults allArgNames posDefaults kwDefaults kwOnlyCount)) =
      (allArgNames.zip posValues).filter (keepSupplied
        (buildDefaults allArgNames posDefaults kwDefaults kwOnlyCount)) := by
    rw [hz2, List.filter_append]
    simp [hkeep1]
  have hpd : posArgDict allArgNames (posValues ++ [dv])
      (buildDefaults allArgNames posDefaults kwDefaults kwOnlyCount) =
      posArgDict allArgNames posValues
        (buildDefaults allArgNames posDefaults kwDefaults kwOnlyCount) := by
    unfold posArgDict
    rw [hfil]
  constructor
  · show (dictUpdate (posArgDict allArgNames (posValues ++ [dv])
        (buildDefaults allArgNames posDefaults kwDefaults kwOnlyCount))
        (dictUpdate [] (kwArgs.filter (keepSupplied
          (buildDefaults allArgNames posDefaults kwDefaults kwOnlyCount)))),
      ambiguousWarnings (posArgDict allArgNames (posValues ++ [dv])
        (buildDefaults allArgNames posDefaults kwDefaults kwOnlyCount))
        kwArgs) = _
    rw [hpd]
    rfl
  · have hkeep2 : keepSupplied
        (buildDefaults allArgNames posDefaults kwDefaults kwOnlyCount)
        (a, dv2) = false := by
      unfold keepSupplied
      rw [hdef2]
      simp
    have hfil2 : (kwArgs ++ [(a, dv2)]).filter (keepSupplied
        (buildDefaults allArgNames posDefaults kwDefaults kwOnlyCount)) =
        kwArgs.filter (keepSupplied
          (buildDefaults allArgNames posDefaults kwDefaults kwOnlyCount)) := by
      rw [List.filter_append]
      simp [hkeep2]
    show dictUpdate (posArgDict allArgNames posValues
        (buildDefaults allArgNames posDefaults kwDefaults kwOnlyCount))
        (dictUpdate [] ((kwArgs ++ [(a, dv2)]).filter (keepSupplied
          (buildDefaults allArgNames posDefaults kwDefaults
            kwOnlyCount)))) = _
    rw [hfil2]
    rfl

/-- Witness for C3: `f(a=1)` declared as `def f(a=1)`, called as `f(1)` and
as `f(a=1)`, both equal to `f()`. -/
theorem passing_default_equals_omission_witness :
    (["a"] : List String).drop ([] : List Int).length = "a" :: [] ∧
      dictGet (buildDefaults ["a"] [(1 : Int)] [] 0) "a" = some 1 ∧
      (getArgDict ([] ++ [(1 : Int)]) [] ["a"] [(1 : Int)] [] 0 =
        getArgDict ([] : List Int) [] ["a"] [(1 : Int)] [] 0 ∧
      (getArgDict ([] : List Int) ([] ++ [("a", (1 : Int))]) ["a"]
          [(1 : Int)] [] 0).fst =
        (getArgDict ([] : List Int) [] ["a"] [(1 : Int)] [] 0).fst) :=
  ⟨rfl, rfl,
    passing_default_equals_omission [] [] ["a"] [(1 : Int)] [] 0
      "a" "a" 1 1 [] rfl rfl rfl⟩

/-! ### C2: the defaults table aligns defaults with the rightmost names -/

/-- C2: the binder's default-value table (built by reverse-zipping names
with positional defaults) agrees, as a lookup table, with the spec's
description: split off the keyword-only suffix, align the positional
defaults with the rightmost names of the positional-or-keyword prefix, then
overlay the keyword-only defaults. Hypotheses: the declared parameter names
are distinct, and the positional defaults do not outnumber the
positional-or-keyword parameters (both guaranteed for Python callables). -/
theorem buildDefaults_refines_spec {V : Type} (allArgNames : List String)
    (posDefaults : List V) (kwDefaults : List (String × V))
    (kwOnlyCount : Nat) (hnd : allArgNames.Nodup)
    (hlen : posDefaults.length ≤
      (allArgNames.take (allArgNames.length - kwOnlyCount)).length)
    (n : String) :
    dictGet (buildDefaults allArgNames posDefaults kwDefaults kwOnlyCount)
        n =
      dictGet (buildDefaultsSpec allArgNames posDefaults kwDefaults
        kwOnlyCount) n := by
  have hpn : (if kwOnlyCount ≠ 0 then
        allArgNames.take (allArgNames.length - kwOnlyCount)
      else allArgNames) =
      allArgNames.take (allArgNames.length - kwOnlyCount) := by
    by_cases h : kwOnlyCount = 0
    · subst h
      simp
    · simp [h]
  have htr : ((allArgNames.take (allArgNames.length - kwOnlyCount)).drop
      ((allArgNames.take (allArgNames.length - kwOnlyCount)).length -
        posDefaults.length)).length = posDefaults.length := by
    rw [List.length_drop]
    simp only [List.length_take] at hlen ⊢
    omega
  have htnd : ((allArgNames.take (allArgNames.length - kwOnlyCount)).drop
      ((allArgNames.take (allArgNames.length - kwOnlyCount)).length -
        posDefaults.length)).Nodup :=
    List.Nodup.sublist (List.drop_sublist _ _)
      (List.Nodup.sublist (List.take_sublist _ _) hnd)
  have hPnd := zip_keys_nodup _ posDefaults htnd
  have hzip : (allArgNames.take
        (allArgNames.length - kwOnlyCount)).reverse.zip
        posDefaults.reverse =
      (((allArgNames.take (allArgNames.length - kwOnlyCount)).drop
        ((allArgNames.take (allArgNames.length - kwOnlyCount)).length -
          posDefaults.length)).zip posDefaults).reverse := by
    conv_lhs => rw [← List.take_append_drop
      ((allArgNames.take (allArgNames.length - kwOnlyCount)).length -
        posDefaults.length)
      (allArgNames.take (allArgNames.length - kwOnlyCount)),
      List.reverse_append]
    rw [zip_left_truncate _ _ _
      (by rw [List.length_reverse, List.length_reverse, htr])]
    exact zip_reverse _ posDefaults htr
  have hbase : ∀ nn, dictGet (if posDefaults.isEmpty then
        ([] : List (String × V))
      else dictUpdate [] ((if kwOnlyCount ≠ 0 then
          allArgNames.take (allArgNames.length - kwOnlyCount)
        else allArgNames).reverse.zip posDefaults.reverse)) nn =
      dictGet (dictUpdate []
        (((allArgNames.take (allArgNames.length - kwOnlyCount)).drop
          ((allArgNames.take (allArgNames.length - kwOnlyCount)).length -
            posDefaults.length)).zip posDefaults)) nn := by
    intro nn
    by_cases hpe : posDefaults.isEmpty = true
    · have hpd : posDefaults = [] := List.isEmpty_iff.mp hpe
      subst hpd
      simp [dictUpdate, dictGet]
    · simp only [hpe, Bool.false_eq_true, if_false]
      rw [hpn, hzip, dictGet_dictUpdate, dictGet_dictUpdate,
        List.reverse_reverse, dictGet_reverse hPnd]
  by_cases hke : kwDefaults.isEmpty = true
  · have hkd : kwDefaults = [] := List.isEmpty_iff.mp hke
    subst hkd
    exact hbase n
  · have hb : buildDefaults allArgNames posDefaults kwDefaults kwOnlyCount =
        dictUpdate (if posDefaults.isEmpty then ([] : List (String × V))
          else dictUpdate [] ((if kwOnlyCount ≠ 0 then
              allArgNames.take (allArgNames.length - kwOnlyCount)
            else allArgNames).reverse.zip posDefaults.reverse))
          kwDefaults := by
      unfold buildDefaults
      simp only [hke, Bool.false_eq_true, if_false]
    rw [hb]
    show _ = dictGet (dictUpdate (dictUpdate []
      (((allArgNames.take (allArgNames.length - kwOnlyCount)).drop
        ((allArgNames.take (allArgNames.length - kwOnlyCount)).length -
          posDefaults.length)).zip posDefaults)) kwDefaults) n
    rw [dictGet_dictUpdate, dictGet_dictUpdate, hbase n]

/-- Witness for C2: `def f(a, b=1, *, c=5)` — three parameters, one
positional default, one keyword-only default. -/
theorem buildDefaults_refines_spec_witness :
    (["a", "b", "c"] : List String).Nodup ∧
      ([(1 : Int)] : List Int).length ≤
        ((["a", "b", "c"] : List String).take
          ((["a", "b", "c"] : List String).length - 1)).length ∧
      dictGet (buildDefaults ["a", "b", "c"] [(1 : Int)] [("c", 5)] 1)
          "b" =
        dictGet (buildDefaultsSpec ["a", "b", "c"] [(1 : Int)] [("c", 5)] 1)
          "b" :=
  ⟨by decide, by decide,
    buildDefaults_refines_spec ["a", "b", "c"] [(1 : Int)] [("c", 5)] 1
      (by decide) (by decide) "b"⟩

/-! ### Witnesses for the binder claims -/

/-- Witness for C7: `def f(a=1, **kwargs)` called as `f(2, a=3)`. -/
theorem kw_overlap_warns_and_includes_witness :
    ((([("a", (3 : Int))] : List (String × Int)).map Prod.fst).Nodup ∧
      dictGet [("a", (3 : Int))] "a" = some 3 ∧
      (dictGet (posArgDict ["a"] [(2 : Int)]
        (buildDefaults ["a"] [(1 : Int)] [] 0)) "a").isSome = true) ∧
    ("a" ∈ (getArgDict [(2 : Int)] [("a", (3 : Int))] ["a"] [(1 : Int)]
        [] 0).snd ∧
      (dictGet (buildDefaults ["a"] [(1 : Int)] [] 0) "a" ≠ some 3 →
        dictGet (getArgDict [(2 : Int)] [("a", (3 : Int))] ["a"]
          [(1 : Int)] [] 0).fst "a" = some 3)) :=
  ⟨⟨by decide, rfl, rfl⟩,
    kw_overlap_warns_and_includes [(2 : Int)] [("a", (3 : Int))] ["a"]
      [(1 : Int)] [] 0 "a" 3 (by decide) rfl rfl⟩

/-- Witness for C8: `def f(a=1, **kwargs)` called as `f(1, a=2)` — the
positional value equals the default, so no warning names `a`. -/
theorem no_warning_when_positional_filtered_witness :
    ((["a"] : List String).Nodup ∧
      (("a", (1 : Int)) ∈ (["a"] : List String).zip [(1 : Int)]) ∧
      dictGet (buildDefaults ["a"] [(1 : Int)] [] 0) "a" = some 1) ∧
    "a" ∉ (getArgDict [(1 : Int)] [("a", (2 : Int))] ["a"] [(1 : Int)]
      [] 0).snd :=
  ⟨⟨by decide, by simp, rfl⟩,
    no_warning_when_positional_filtered [(1 : Int)] [("a", (2 : Int))]
      ["a"] [(1 : Int)] [] 0 "a" 1 (by decide) (by simp) rfl⟩

/-- Witness for C10: `def f(a=1, **kwargs)` called as `f(2, a=3)` — the
keyword value `3` differs from the default `1`, so it replaces the
positional value `2`; were it equal to the default, the positional value
would be kept. -/
theorem kw_overlay_vs_positional_witness :
    ((([("a", (3 : Int))] : List (String × Int)).map Prod.fst).Nodup ∧
      dictGet [("a", (3 : Int))] "a" = some 3 ∧
      dictGet (posArgDict ["a"] [(2 : Int)]
        (buildDefaults ["a"] [(1 : Int)] [] 0)) "a" = some 2 ∧
      dictGet (buildDefaults ["a"] [(1 : Int)] [] 0) "a" = some 1) ∧
    (((3 : Int) ≠ 1 →
      dictGet (getArgDict [(2 : Int)] [("a", (3 : Int))] ["a"] [(1 : Int)]
        [] 0).fst "a" = some 3) ∧
    ((3 : Int) = 1 →
      dictGet (getArgDict [(2 : Int)] [("a", (3 : Int))] ["a"] [(1 : Int)]
        [] 0).fst "a" = some 2)) :=
  ⟨⟨by decide, rfl, rfl, rfl⟩,
    kw_overlay_vs_positional [(2 : Int)] [("a", (3 : Int))] ["a"]
      [(1 : Int)] [] 0 "a" 3 2 1 (by decide) rfl rfl rfl⟩

end Argcomb
